import Mathlib

/-!
Verification of the revamb front-end (`main.cpp`) and its worklist
containers (`UniquedQueue` / `UniquedStack` from the datastructures
header).  Every definition below is a shallow embedding of the
corresponding C++ entity; machine integers are modelled as `Nat`/`Int`
with explicit reduction modulo `2 ^ 64` where unsigned wrap-around
matters, and fallible code returns `Option` or an explicit result type.
-/

/-! ## Elements stored in the worklist containers

The C++ containers are templates instantiated with pointer-like values
exposing `getParent()`; `insert` asserts `Element->getParent() != nullptr`.
We model an element as an identity plus an optional parent. -/

structure Elem where
  id : Nat
  parent : Option Nat
deriving DecidableEq, Repr

/-- `Element->getParent()` : a null pointer is `none`. -/
def Elem.getParent (e : Elem) : Option Nat := e.parent

/-! ## UniquedQueue

```cpp
template<typename T> class UniquedQueue {
  void insert(T Element) {
    if (Set.count(Element) == 0) {
      assert(Element->getParent() != nullptr);
      Set.insert(Element);
      Queue.push(Element);
    }
  }
  bool empty() const { return Queue.empty(); }
  T pop() {
    T Result = Queue.front();
    Queue.pop();
    Set.erase(Result);
    return Result;
  }
  size_t size() const { return Queue.size(); }
  std::set<T> Set;  std::queue<T> Queue;
};
```
`Set` is modelled as a `List Elem` used purely for membership (the code
only inserts an element absent from it, so it stays duplicate-free);
`Queue` is a `List Elem` with the front of the `std::queue` at the head. -/

structure UniquedQueue where
  set : List Elem
  queue : List Elem
deriving DecidableEq, Repr

/-- Result of `pop()`.  `ub` marks the undefined behaviour of calling
`front()`/`back()` on an empty standard container (the C++ code performs
no emptiness check before doing so). -/
inductive PopResult (C : Type) where
  | ok (x : Elem) (c : C)
  | ub
deriving DecidableEq, Repr

def uqEmpty : UniquedQueue := ⟨[], []⟩

/-- `UniquedQueue::insert`.  `none` models an assertion failure
(`assert(Element->getParent() != nullptr)` fired). -/
def UniquedQueue.insert (s : UniquedQueue) (x : Elem) : Option UniquedQueue :=
  if x ∈ s.set then
    some s
  else if x.getParent = none then
    none
  else
    some ⟨x :: s.set, s.queue ++ [x]⟩

/-- `UniquedQueue::empty`. -/
def UniquedQueue.empty (s : UniquedQueue) : Bool := s.queue.isEmpty

/-- `UniquedQueue::pop` : takes `Queue.front()`, pops it, erases it from
the set.  On an empty queue `front()` is undefined behaviour. -/
def UniquedQueue.pop (s : UniquedQueue) : PopResult UniquedQueue :=
  match s.queue with
  | [] => PopResult.ub
  | x :: rest => PopResult.ok x ⟨s.set.erase x, rest⟩

/-- `UniquedQueue::size`. -/
def UniquedQueue.size (s : UniquedQueue) : Nat := s.queue.length

/-! ## UniquedStack

Identical shape, except the ordered container is a `std::vector` used as
a stack: `insert` does `push_back`, `pop` takes `back()` and
`pop_back()`, and `reverse()` reverses the vector.  We store the vector
reversed: the head of `queue` is the back of the vector, i.e. the top of
the stack. -/

structure UniquedStack where
  set : List Elem
  queue : List Elem
deriving DecidableEq, Repr

def usEmpty : UniquedStack := ⟨[], []⟩

/-- `UniquedStack::insert` (same guard and assertion as the queue; the
new element becomes the top of the stack). -/
def UniquedStack.insert (s : UniquedStack) (x : Elem) : Option UniquedStack :=
  if x ∈ s.set then
    some s
  else if x.getParent = none then
    none
  else
    some ⟨x :: s.set, x :: s.queue⟩

/-- `UniquedStack::empty`. -/
def UniquedStack.empty (s : UniquedStack) : Bool := s.queue.isEmpty

/-- `UniquedStack::pop` : takes `Queue.back()` (our head), pops it,
erases it from the set.  On an empty vector `back()` is undefined
behaviour. -/
def UniquedStack.pop (s : UniquedStack) : PopResult UniquedStack :=
  match s.queue with
  | [] => PopResult.ub
  | x :: rest => PopResult.ok x ⟨s.set.erase x, rest⟩

/-- `UniquedStack::reverse`. -/
def UniquedStack.reverse (s : UniquedStack) : UniquedStack :=
  ⟨s.set, s.queue.reverse⟩

/-- `UniquedStack::size`. -/
def UniquedStack.size (s : UniquedStack) : Nat := s.queue.length

/-! ## Operation sequences over the containers

A client may interleave `insert` and `pop` calls.  A run fails (`none`)
as soon as an assertion fires or a `pop` hits undefined behaviour, so
the states a run produces are exactly those a well-defined C++ execution
can reach. -/

inductive WOp where
  | ins (x : Elem)
  | pop
deriving DecidableEq, Repr

def stepQ (s : UniquedQueue) : WOp → Option UniquedQueue
  | WOp.ins x => s.insert x
  | WOp.pop =>
    match s.pop with
    | PopResult.ok _ c => some c
    | PopResult.ub => none

def stepS (s : UniquedStack) : WOp → Option UniquedStack
  | WOp.ins x => s.insert x
  | WOp.pop =>
    match s.pop with
    | PopResult.ok _ c => some c
    | PopResult.ub => none

/-- Run a sequence of operations on an initially empty `UniquedQueue`. -/
def runQ (ops : List WOp) : Option UniquedQueue :=
  ops.foldlM stepQ uqEmpty

/-- Run a sequence of operations on an initially empty `UniquedStack`. -/
def runS (ops : List WOp) : Option UniquedStack :=
  ops.foldlM stepS usEmpty

/-! ## Container invariants

States reachable by a well-defined run: the ordered container and the
membership set hold exactly the same elements, without duplicates, and
every held element has a parent (the assertion in `insert` guarantees
it). -/

def InvQ (s : UniquedQueue) : Prop :=
  s.queue.Nodup ∧ s.set.Nodup ∧ (∀ x, x ∈ s.set ↔ x ∈ s.queue) ∧
    ∀ x ∈ s.queue, x.getParent ≠ none

def InvS (s : UniquedStack) : Prop :=
  s.queue.Nodup ∧ s.set.Nodup ∧ (∀ x, x ∈ s.set ↔ x ∈ s.queue) ∧
    ∀ x ∈ s.queue, x.getParent ≠ none

theorem invQ_empty : InvQ uqEmpty := by
  refine ⟨List.nodup_nil, List.nodup_nil, ?_, ?_⟩ <;> simp [uqEmpty]

theorem invS_empty : InvS usEmpty := by
  refine ⟨List.nodup_nil, List.nodup_nil, ?_, ?_⟩ <;> simp [usEmpty]

theorem stepQ_inv {s s' : UniquedQueue} {op : WOp} (hs : InvQ s)
    (h : stepQ s op = some s') : InvQ s' := by
  obtain ⟨hq, hset, hiff, hpar⟩ := hs
  cases op with
  | ins x =>
    simp only [stepQ, UniquedQueue.insert] at h
    by_cases hmem : x ∈ s.set
    · simp only [if_pos hmem] at h
      cases h
      exact ⟨hq, hset, hiff, hpar⟩
    · simp only [if_neg hmem] at h
      by_cases hp : x.getParent = none
      · simp [hp] at h
      · simp only [if_neg hp, Option.some.injEq] at h
        subst h
        have hxq : x ∉ s.queue := fun hx => hmem ((hiff x).mpr hx)
        refine ⟨?_, ?_, ?_, ?_⟩
        · refine (List.nodup_append).mpr ⟨hq, List.nodup_singleton x, ?_⟩
          intro a ha hax
          rw [List.mem_singleton] at hax
          exact hxq (hax ▸ ha)
        · exact List.nodup_cons.mpr ⟨hmem, hset⟩
        · intro y
          simp only [List.mem_cons, List.mem_append, List.mem_nil_iff, or_false]
          constructor
          · rintro (rfl | hy)
            · exact Or.inr rfl
            · exact Or.inl ((hiff y).mp hy)
          · rintro (hy | rfl)
            · exact Or.inr ((hiff y).mpr hy)
            · exact Or.inl rfl
        · intro y hy
          rcases List.mem_append.mp hy with hy | hy
          · exact hpar y hy
          · rcases List.mem_singleton.mp hy with rfl
            exact hp
  | pop =>
    simp only [stepQ, UniquedQueue.pop] at h
    cases hqe : s.queue with
    | nil => simp [hqe] at h
    | cons x rest =>
      simp only [hqe, Option.some.injEq] at h
      subst h
      have hq' := hqe ▸ hq
      have hxrest : x ∉ rest := (List.nodup_cons.mp hq').1
      have hrest : rest.Nodup := (List.nodup_cons.mp hq').2
      refine ⟨hrest, hset.erase x, ?_, ?_⟩
      · intro y
        rw [hset.mem_erase_iff, hiff y, hqe, List.mem_cons]
        constructor
        · rintro ⟨hne, rfl | hy⟩
          · exact absurd rfl hne
          · exact hy
        · intro hy
          exact ⟨fun hyx => hxrest (hyx ▸ hy), Or.inr hy⟩
      · intro y hy
        exact hpar y (hqe ▸ List.mem_cons_of_mem x hy)

theorem stepS_inv {s s' : UniquedStack} {op : WOp} (hs : InvS s)
    (h : stepS s op = some s') : InvS s' := by
  obtain ⟨hq, hset, hiff, hpar⟩ := hs
  cases op with
  | ins x =>
    simp only [stepS, UniquedStack.insert] at h
    by_cases hmem : x ∈ s.set
    · simp only [if_pos hmem] at h
      cases h
      exact ⟨hq, hset, hiff, hpar⟩
    · simp only [if_neg hmem] at h
      by_cases hp : x.getParent = none
      · simp [hp] at h
      · simp only [if_neg hp, Option.some.injEq] at h
        subst h
        have hxq : x ∉ s.queue := fun hx => hmem ((hiff x).mpr hx)
        refine ⟨List.nodup_cons.mpr ⟨hxq, hq⟩, List.nodup_cons.mpr ⟨hmem, hset⟩, ?_, ?_⟩
        · intro y
          simp only [List.mem_cons]
          exact or_congr Iff.rfl (hiff y)
        · intro y hy
          rcases List.mem_cons.mp hy with rfl | hy
          · exact hp
          · exact hpar y hy
  | pop =>
    simp only [stepS, UniquedStack.pop] at h
    cases hqe : s.queue with
    | nil => simp [hqe] at h
    | cons x rest =>
      simp only [hqe, Option.some.injEq] at h
      subst h
      have hq' := hqe ▸ hq
      have hxrest : x ∉ rest := (List.nodup_cons.mp hq').1
      have hrest : rest.Nodup := (List.nodup_cons.mp hq').2
      refine ⟨hrest, hset.erase x, ?_, ?_⟩
      · intro y
        rw [hset.mem_erase_iff, hiff y, hqe, List.mem_cons]
        constructor
        · rintro ⟨hne, rfl | hy⟩
          · exact absurd rfl hne
          · exact hy
        · intro hy
          exact ⟨fun hyx => hxrest (hyx ▸ hy), Or.inr hy⟩
      · intro y hy
        exact hpar y (hqe ▸ List.mem_cons_of_mem x hy)

theorem foldQ_inv : ∀ (ops : List WOp) (s s' : UniquedQueue), InvQ s →
    List.foldlM stepQ s ops = some s' → InvQ s'
  | [], s, s', hs, h => by
    simp only [List.foldlM] at h
    cases h
    exact hs
  | op :: ops, s, s', hs, h => by
    simp only [List.foldlM_cons, Option.bind_eq_bind, Option.bind] at h
    cases hst : stepQ s op with
    | none => rw [hst] at h; cases h
    | some s1 =>
      rw [hst] at h
      exact foldQ_inv ops s1 s' (stepQ_inv hs hst) h

theorem foldS_inv : ∀ (ops : List WOp) (s s' : UniquedStack), InvS s →
    List.foldlM stepS s ops = some s' → InvS s'
  | [], s, s', hs, h => by
    simp only [List.foldlM] at h
    cases h
    exact hs
  | op :: ops, s, s', hs, h => by
    simp only [List.foldlM_cons, Option.bind_eq_bind, Option.bind] at h
    cases hst : stepS s op with
    | none => rw [hst] at h; cases h
    | some s1 =>
      rw [hst] at h
      exact foldS_inv ops s1 s' (stepS_inv hs hst) h

theorem runQ_inv {ops : List WOp} {s : UniquedQueue} (h : runQ ops = some s) :
    InvQ s := foldQ_inv ops uqEmpty s invQ_empty h

theorem runS_inv {ops : List WOp} {s : UniquedStack} (h : runS ops = some s) :
    InvS s := foldS_inv ops usEmpty s invS_empty h

/-! ## FIFO order (queue) and successive pops -/

/-- `PopsToQ s l` : starting from `s`, successive `pop()` calls return
exactly the elements of `l` in order, after which the queue is empty. -/
inductive PopsToQ : UniquedQueue → List Elem → Prop where
  | nil (s : UniquedQueue) : s.queue = [] → PopsToQ s []
  | cons (s : UniquedQueue) (x : Elem) (c : UniquedQueue) (l : List Elem) :
      s.pop = PopResult.ok x c → PopsToQ c l → PopsToQ s (x :: l)

theorem popsToQ_queue : ∀ (q st : List Elem), PopsToQ ⟨st, q⟩ q
  | [], _ => PopsToQ.nil _ rfl
  | x :: r, st =>
    PopsToQ.cons ⟨st, x :: r⟩ x ⟨st.erase x, r⟩ r rfl (popsToQ_queue r (st.erase x))

/-- Inserting a duplicate-free list of parented elements, none already
present, appends it to the queue in order. -/
theorem foldQ_insertList : ∀ (l : List Elem) (st qu : List Elem),
    l.Nodup → (∀ x ∈ l, x.getParent ≠ none) → (∀ x ∈ l, x ∉ st) →
    List.foldlM stepQ (⟨st, qu⟩ : UniquedQueue) (l.map WOp.ins) =
      some ⟨l.reverse ++ st, qu ++ l⟩
  | [], st, qu, _, _, _ => by simp [List.foldlM]
  | x :: l, st, qu, hnd, hpar, hmem => by
    have hx : x ∉ st := hmem x (List.mem_cons_self x l)
    have hxp : x.getParent ≠ none := hpar x (List.mem_cons_self x l)
    have hstep : stepQ ⟨st, qu⟩ (WOp.ins x) = some ⟨x :: st, qu ++ [x]⟩ := by
      simp [stepQ, UniquedQueue.insert, hx, hxp]
    have ih := foldQ_insertList l (x :: st) (qu ++ [x])
      (List.nodup_cons.mp hnd).2
      (fun y hy => hpar y (List.mem_cons_of_mem x hy))
      (fun y hy => by
        rcases List.nodup_cons.mp hnd with ⟨hxl, _⟩
        intro hyc
        rcases List.mem_cons.mp hyc with rfl | hyst
        · exact hxl hy
        · exact hmem y (List.mem_cons_of_mem x hy) hyst)
    simp only [List.map_cons, List.foldlM_cons, Option.bind_eq_bind, hstep,
      Option.some_bind, ih]
    simp

/-! ## LIFO order (stack): ghost-timestamped instrumentation

To state "`pop` returns the most recently inserted element that has not
yet been popped" we annotate the very same transition function with a
ghost list of `(element, effective-insertion time)` pairs: an effective
insertion (one that actually pushes) records the current step counter;
a no-op duplicate insertion records nothing; a pop discards the pair of
the popped element.  The ghost list therefore holds exactly the live
(inserted and not yet popped) elements with the time of their latest
effective insertion. -/

structure GStack where
  s : UniquedStack
  ghost : List (Elem × Nat)
  now : Nat

def gsStep (g : GStack) : WOp → Option GStack
  | WOp.ins x =>
    if x ∈ g.s.set then some ⟨g.s, g.ghost, g.now + 1⟩
    else if x.getParent = none then none
    else some ⟨⟨x :: g.s.set, x :: g.s.queue⟩, (x, g.now) :: g.ghost, g.now + 1⟩
  | WOp.pop =>
    match g.s.queue with
    | [] => none
    | x :: rest => some ⟨⟨g.s.set.erase x, rest⟩, g.ghost.tail, g.now + 1⟩

def runGS (ops : List WOp) : Option GStack :=
  ops.foldlM gsStep ⟨usEmpty, [], 0⟩

/-- The instrumentation is faithful: projecting the ghost run onto the
plain stack gives exactly the plain run. -/
theorem gsStep_proj (g : GStack) (op : WOp) :
    (gsStep g op).map GStack.s = stepS g.s op := by
  cases op with
  | ins x =>
    simp only [gsStep, stepS, UniquedStack.insert]
    by_cases hm : x ∈ g.s.set
    · simp [hm]
    · by_cases hp : x.getParent = none
      · simp [hm, hp]
      · simp [hm, hp]
  | pop =>
    simp only [gsStep, stepS, UniquedStack.pop]
    cases hq : g.s.queue with
    | nil => simp [hq]
    | cons x rest => simp [hq]

theorem foldGS_proj : ∀ (ops : List WOp) (g0 : GStack),
    (List.foldlM gsStep g0 ops).map GStack.s = List.foldlM stepS g0.s ops
  | [], g0 => by simp [List.foldlM]
  | op :: ops, g0 => by
    simp only [List.foldlM_cons, Option.bind_eq_bind]
    cases h : gsStep g0 op with
    | none =>
      have hpr := gsStep_proj g0 op
      rw [h] at hpr
      simp only [Option.map_none'] at hpr
      simp [h, ← hpr]
    | some g1 =>
      have hpr := gsStep_proj g0 op
      rw [h] at hpr
      simp only [Option.map_some'] at hpr
      simp only [h, Option.some_bind, ← hpr, Option.some_bind]
      exact foldGS_proj ops g1

theorem runGS_proj (ops : List WOp) :
    (runGS ops).map GStack.s = runS ops := foldGS_proj ops ⟨usEmpty, [], 0⟩

/-- Ghost invariant: the ghost list is aligned with the stack (same
elements, top first), its timestamps strictly decrease from the top, and
all timestamps are in the past. -/
def GInv (g : GStack) : Prop :=
  g.ghost.map Prod.fst = g.s.queue ∧
    List.Pairwise (fun a b : Elem × Nat => b.2 < a.2) g.ghost ∧
    ∀ p ∈ g.ghost, p.2 < g.now

theorem gsStep_inv {g g' : GStack} {op : WOp} (hg : GInv g)
    (h : gsStep g op = some g') : GInv g' := by
  obtain ⟨hal, hpw, hlt⟩ := hg
  cases op with
  | ins x =>
    simp only [gsStep] at h
    by_cases hm : x ∈ g.s.set
    · rw [if_pos hm] at h
      cases h
      exact ⟨hal, hpw, fun p hp => Nat.lt_succ_of_lt (hlt p hp)⟩
    · rw [if_neg hm] at h
      by_cases hp : x.getParent = none
      · rw [if_pos hp] at h
        cases h
      · rw [if_neg hp] at h
        cases h
        refine ⟨by simp [hal], ?_, ?_⟩
        · exact List.pairwise_cons.mpr ⟨fun p hp2 => hlt p hp2, hpw⟩
        · intro p hp2
          rcases List.mem_cons.mp hp2 with rfl | hp2
          · exact Nat.lt_succ_self _
          · exact Nat.lt_succ_of_lt (hlt p hp2)
  | pop =>
    simp only [gsStep] at h
    cases hq : g.s.queue with
    | nil => simp [hq] at h
    | cons y rest =>
      simp only [hq] at h
      cases h
      cases hgh : g.ghost with
      | nil => rw [hgh, hq] at hal; cases hal
      | cons p gr =>
        rw [hgh] at hal
        simp only [List.map_cons, hq, List.cons.injEq] at hal
        refine ⟨?_, ?_, ?_⟩
        · simpa [hgh] using hal.2
        · simpa [hgh] using (List.pairwise_cons.mp (hgh ▸ hpw)).2
        · intro q hq2
          simp only [List.tail_cons] at hq2
          exact Nat.lt_succ_of_lt (hlt q (hgh ▸ List.mem_cons_of_mem p hq2))

theorem gInv_empty : GInv ⟨usEmpty, [], 0⟩ := by
  refine ⟨rfl, List.Pairwise.nil, ?_⟩
  intro p hp
  cases hp

theorem foldGS_inv : ∀ (ops : List WOp) (g g' : GStack), GInv g →
    List.foldlM gsStep g ops = some g' → GInv g'
  | [], g, g', hg, h => by
    simp only [List.foldlM] at h
    cases h
    exact hg
  | op :: ops, g, g', hg, h => by
    simp only [List.foldlM_cons, Option.bind_eq_bind, Option.bind] at h
    cases hst : gsStep g op with
    | none => rw [hst] at h; cases h
    | some g1 =>
      rw [hst] at h
      exact foldGS_inv ops g1 g' (gsStep_inv hg hst) h

theorem runGS_inv {ops : List WOp} {g : GStack} (h : runGS ops = some g) :
    GInv g := foldGS_inv ops ⟨usEmpty, [], 0⟩ g gInv_empty h

/-! ## Front end: command line parsing (`parseArgs`)

`argparse` itself is an external collaborator; we model its outcome: the
option values it extracted (`-a`, `-o`, `-g`) and the remaining
positional arguments.  Everything from line 182 of `main.cpp` on
(parameter checking, `sscanf` of the offset, the debug-string switch,
positional handling) is embedded below.  `EXIT_SUCCESS`/`EXIT_FAILURE`
are 0/1; a failing parse returns `none`. -/

inductive DebugInfoType where
  | None
  | OriginalAssembly
  | PTC
deriving DecidableEq, Repr

structure ProgramParameters where
  architecture : String
  inputPath : Option String
  outputPath : Option String
  offset : Nat
  debugInfo : DebugInfoType
deriving DecidableEq, Repr

/-- The characters C's `isspace` accepts (the whitespace `%lld` skips). -/
def isSpaceC (c : Char) : Bool :=
  c = ' ' || c = '\t' || c = '\n' || c = '\x0b' || c = '\x0c' || c = '\r'

def digitsToNat (ds : List Char) : Nat :=
  ds.foldl (fun acc c => acc * 10 + (c.toNat - '0'.toNat)) 0

/-- `sscanf(s, "%lld", &v)` : skip whitespace, optional sign, then at
least one decimal digit (trailing junk ignored).  `none` models a return
value other than 1 (matching failure or early EOF). -/
def sscanfLL (s : String) : Option Int :=
  let cs := s.data.dropWhile (fun c => isSpaceC c)
  let sr : Int × List Char :=
    match cs with
    | '-' :: r => (-1, r)
    | '+' :: r => (1, r)
    | _ => (1, cs)
  let ds := sr.2.takeWhile (fun c => c.isDigit)
  if ds.isEmpty then none
  else some (sr.1 * (digitsToNat ds : Int))

/-- `(size_t) v` : conversion of a signed 64-bit value to the unsigned
64-bit `size_t` is reduction modulo `2 ^ 64`. -/
def toSizeT (i : Int) : Nat := (i % (2 ^ 64 : Int)).toNat

/-- The `-g` switch of `parseArgs` (main.cpp lines 197-208). -/
def parseDebugArg (s : String) : Option DebugInfoType :=
  if s = "none" then some DebugInfoType.None
  else if s = "asm" then some DebugInfoType.OriginalAssembly
  else if s = "ptc" then some DebugInfoType.PTC
  else none

/-- What `argparse` handed back: the three option strings and the
positional arguments. -/
structure ArgInput where
  architecture : Option String
  offsetString : Option String
  debugString : Option String
  positionals : List String
deriving DecidableEq, Repr

/-- The `-o` handling of `parseArgs` (main.cpp lines 188-195): absent
means the zero-initialized default 0; otherwise `sscanf %lld` must
succeed and the value is stored through `(size_t) Offset`. -/
def parseOffsetArg (o : Option String) : Option Nat :=
  match o with
  | none => some 0
  | some s => (sscanfLL s).map toSizeT

/-- The `-g` handling of `parseArgs` (main.cpp lines 197-208): absent
means the zero-initialized default (the zero enumerator `None`). -/
def parseDebugOpt (o : Option String) : Option DebugInfoType :=
  match o with
  | none => some DebugInfoType.None
  | some s => parseDebugArg s

/-- `parseArgs` (main.cpp lines 151-223). -/
def parseArgs (args : ArgInput) : Option ProgramParameters :=
  match args.architecture with
  | none => none
  | some arch =>
    match parseOffsetArg args.offsetString with
    | none => none
    | some offsetVal =>
      match parseDebugOpt args.debugString with
      | none => none
      | some d =>
        if args.positionals.length > 2 then none
        else some ⟨arch, args.positionals.get? 0, args.positionals.get? 1,
                   offsetVal, d⟩

/-! ## Front end: decoder library loading (`loadPTCLibrary`)

`dlopen`/`dlsym`/`ptc_load` are external; the environment records, per
architecture name, whether the library resolves, whether it exports
`ptc_load`, and what `ptc_load` returns. -/

structure DLEnv where
  libResolves : String → Bool
  hasPtcLoad : String → Bool
  ptcLoadRet : String → Int

/-- `loadPTCLibrary` (main.cpp lines 107-142): succeeds iff the library
resolves, exports `ptc_load`, and `ptc_load` returns 0. -/
def loadPTCLibrary (env : DLEnv) (arch : String) : Bool :=
  env.libResolves arch &&
    (env.hasPtcLoad arch && decide (env.ptcLoadRet arch = 0))

/-! ## Front end: reading the input (`ReadWholeInput`) -/

def BUF_SIZE : Nat := 4096

def MAX_INPUT_BUFFER : Nat := 10 * 1024 * 1024

/-- The `while (ReadBytes > 0 && TotalReadBytes < MAX_INPUT_BUFFER)`
loop of `ReadWholeInput`: `rest` is the not-yet-read tail of the input
stream, `lastRead` the byte count of the previous `fread`, `buf` the
bytes accumulated so far (the final `Buffer.resize(TotalReadBytes)`
discards the zero padding, so only the bytes actually read remain). -/
def readLoop (rest : List Nat) (lastRead total : Nat) (buf : List Nat) :
    Nat × List Nat :=
  if 0 < lastRead ∧ total < MAX_INPUT_BUFFER then
    readLoop (rest.drop BUF_SIZE) (rest.take BUF_SIZE).length
      (total + (rest.take BUF_SIZE).length) (buf ++ rest.take BUF_SIZE)
  else (total, buf)
termination_by rest.length + (if 0 < lastRead then 1 else 0)
decreasing_by
  rename_i h
  rcases h with ⟨h1, _⟩
  rw [if_pos h1]
  simp only [List.length_drop, List.length_take]
  rcases rest with _ | ⟨a, l⟩
  · simp
  · split <;> simp_all

/-- `ReadWholeInput` (main.cpp lines 52-98), for an already-opened input
stream holding exactly the listed bytes.  Returns the exit code and the
final buffer. -/
def ReadWholeInput (stream : List Nat) : Nat × List Nat :=
  if MAX_INPUT_BUFFER ≤ (readLoop (stream.drop BUF_SIZE)
      (stream.take BUF_SIZE).length (stream.take BUF_SIZE).length
      (stream.take BUF_SIZE)).fst then
    (1, (readLoop (stream.drop BUF_SIZE) (stream.take BUF_SIZE).length
      (stream.take BUF_SIZE).length (stream.take BUF_SIZE)).snd)
  else
    (0, (readLoop (stream.drop BUF_SIZE) (stream.take BUF_SIZE).length
      (stream.take BUF_SIZE).length (stream.take BUF_SIZE)).snd)

/-! ## Front end: `main` -/

/-- The arguments `main` hands to `Translate`: the start offset into the
buffer and the `ArrayRef` length `Code.size() - Parameters.Offset`
(computed in `size_t`, i.e. modulo `2 ^ 64`). -/
structure TranslateCall where
  offset : Nat
  length : Nat
  debugInfo : DebugInfoType
deriving DecidableEq, Repr

structure MainOutcome where
  exitCode : Nat
  translateCall : Option TranslateCall
deriving DecidableEq, Repr

/-- `main` (main.cpp lines 225-257): parse arguments, load the decoder
library, read the input (`openOk` is whether `fopen` on the input
succeeds inside `ReadWholeInput`), then call `Translate`.  Any earlier
failure returns `EXIT_FAILURE` (1) without calling `Translate`. -/
def mainModel (env : DLEnv) (openOk : Bool) (stream : List Nat)
    (args : ArgInput) : MainOutcome :=
  match parseArgs args with
  | none => ⟨1, none⟩
  | some p =>
    if loadPTCLibrary env p.architecture then
      if openOk then
        if (ReadWholeInput stream).fst = 0 then
          ⟨0, some ⟨p.offset,
                    toSizeT (((ReadWholeInput stream).snd.length : Int) -
                              (p.offset : Int)),
                    p.debugInfo⟩⟩
        else ⟨1, none⟩
      else ⟨1, none⟩
    else ⟨1, none⟩


/-- Success path of the read loop: when the whole remaining stream fits
under the cap, it is appended to the buffer byte for byte. -/
theorem readLoop_small (rest0 : List Nat) (lastRead0 total0 : Nat)
    (buf0 : List Nat) :
    (lastRead0 = 0 → rest0 = []) →
    total0 + rest0.length < MAX_INPUT_BUFFER →
    readLoop rest0 lastRead0 total0 buf0 =
      (total0 + rest0.length, buf0 ++ rest0) := by
  induction rest0, lastRead0, total0, buf0 using readLoop.induct with
  | case1 rest lastRead total buf h ih =>
    intro hz hlt
    rw [readLoop, if_pos h]
    have hlen : (rest.take BUF_SIZE).length + (rest.drop BUF_SIZE).length =
        rest.length := by
      simp only [List.length_take, List.length_drop]
      omega
    rw [ih ?_ ?_]
    · simp only [Prod.mk.injEq, List.append_assoc, List.take_append_drop,
        and_true]
      omega
    · intro hc0
      rcases hre : rest with _ | ⟨a, l⟩
      · simp
      · rw [hre] at hc0
        simp [BUF_SIZE] at hc0
    · omega
  | case2 rest lastRead total buf h =>
    intro hz hlt
    rw [readLoop, if_neg h]
    rcases Nat.eq_zero_or_pos lastRead with h0 | hpos
    · rw [hz h0]
      simp [hz h0]
    · have hbig : ¬ total < MAX_INPUT_BUFFER := fun hc => h ⟨hpos, hc⟩
      omega

/-- Failure path of the read loop: once a full chunk was just read and
the stream still holds at least cap-many unread bytes, the running total
reaches the cap. -/
theorem readLoop_big (rest0 : List Nat) (lastRead0 total0 : Nat)
    (buf0 : List Nat) :
    lastRead0 = BUF_SIZE → total0 % BUF_SIZE = 0 →
    MAX_INPUT_BUFFER ≤ total0 + rest0.length →
    MAX_INPUT_BUFFER ≤ (readLoop rest0 lastRead0 total0 buf0).fst := by
  induction rest0, lastRead0, total0, buf0 using readLoop.induct with
  | case1 rest lastRead total buf h ih =>
    intro hlr hmod hge
    rw [readLoop, if_pos h]
    obtain ⟨h1, h2⟩ := h
    have htot : total + BUF_SIZE ≤ MAX_INPUT_BUFFER := by
      simp only [BUF_SIZE, MAX_INPUT_BUFFER] at hmod h2 ⊢
      omega
    have hrest : BUF_SIZE ≤ rest.length := by omega
    have hchunk : (rest.take BUF_SIZE).length = BUF_SIZE := by
      simp only [List.length_take]
      omega
    refine ih hchunk ?_ ?_
    · rw [hchunk]
      simp only [BUF_SIZE] at hmod ⊢
      omega
    · simp only [List.length_drop, hchunk]
      omega
  | case2 rest lastRead total buf h =>
    intro hlr hmod hge
    rw [readLoop, if_neg h]
    rcases Nat.eq_zero_or_pos lastRead with h0 | hpos
    · rw [hlr] at h0
      simp [BUF_SIZE] at h0
    · have hbig : ¬ total < MAX_INPUT_BUFFER := fun hc => h ⟨hpos, hc⟩
      simpa using Nat.le_of_not_lt hbig

/-- `ReadWholeInput` behaviour: streams under the cap are read exactly;
streams at or above the cap fail with exit code 1. -/
theorem readWholeInput_spec (stream : List Nat) :
    (stream.length < MAX_INPUT_BUFFER → ReadWholeInput stream = (0, stream)) ∧
    (MAX_INPUT_BUFFER ≤ stream.length → (ReadWholeInput stream).fst = 1) := by
  constructor
  · intro hsmall
    have hz : (stream.take BUF_SIZE).length = 0 → stream.drop BUF_SIZE = [] := by
      intro h0
      rcases hs : stream with _ | ⟨a, l⟩
      · rfl
      · rw [hs] at h0
        simp [BUF_SIZE] at h0
    have hlt : (stream.take BUF_SIZE).length + (stream.drop BUF_SIZE).length <
        MAX_INPUT_BUFFER := by
      simp only [List.length_take, List.length_drop]
      omega
    have hrl := readLoop_small (stream.drop BUF_SIZE)
      (stream.take BUF_SIZE).length (stream.take BUF_SIZE).length
      (stream.take BUF_SIZE) hz hlt
    rw [ReadWholeInput, hrl, if_neg (by simpa using Nat.not_le.mpr hlt)]
    simp only [Prod.mk.injEq, List.take_append_drop]
  · intro hbig
    have hfirst : (stream.take BUF_SIZE).length = BUF_SIZE := by
      simp only [List.length_take]
      simp only [BUF_SIZE, MAX_INPUT_BUFFER] at hbig ⊢
      omega
    have hrl := readLoop_big (stream.drop BUF_SIZE)
      (stream.take BUF_SIZE).length (stream.take BUF_SIZE).length
      (stream.take BUF_SIZE) hfirst
      (by rw [hfirst]; exact Nat.mod_self _)
      (by
        simp only [List.length_drop, hfirst]
        simp only [BUF_SIZE, MAX_INPUT_BUFFER] at hbig ⊢
        omega)
    rw [ReadWholeInput, if_pos hrl]

/-! ## Concrete elements used by the witnesses -/

def e0 : Elem := ⟨0, none⟩

def e1 : Elem := ⟨1, some 0⟩

def e2 : Elem := ⟨2, some 0⟩

/-! ## Claims -/

/-- Claim C1: for both worklist containers, `insert(x)` is a no-op when
`x` is already present (in the membership set), and hence after any
well-defined sequence of `insert` and `pop` operations neither the
ordered container nor the membership set ever holds the same element
twice. -/
theorem claim_C1_no_duplicates :
    (∀ (s : UniquedQueue) (x : Elem), x ∈ s.set → s.insert x = some s) ∧
    (∀ (s : UniquedStack) (x : Elem), x ∈ s.set → s.insert x = some s) ∧
    (∀ (ops : List WOp) (s : UniquedQueue), runQ ops = some s →
       s.queue.Nodup ∧ s.set.Nodup) ∧
    (∀ (ops : List WOp) (s : UniquedStack), runS ops = some s →
       s.queue.Nodup ∧ s.set.Nodup) := by
  refine ⟨?_, ?_, ?_, ?_⟩
  · intro s x hx
    simp [UniquedQueue.insert, hx]
  · intro s x hx
    simp [UniquedStack.insert, hx]
  · intro ops s h
    exact ⟨(runQ_inv h).1, (runQ_inv h).2.1⟩
  · intro ops s h
    exact ⟨(runS_inv h).1, (runS_inv h).2.1⟩

/-- Witness for C1 at concrete inputs. -/
theorem claim_C1_no_duplicates_witness :
    ((⟨[e1], [e1]⟩ : UniquedQueue).insert e1 = some ⟨[e1], [e1]⟩) ∧
    ((⟨[e1], [e1]⟩ : UniquedStack).insert e1 = some ⟨[e1], [e1]⟩) ∧
    ((⟨[e2, e1], [e1, e2]⟩ : UniquedQueue).queue.Nodup ∧
      (⟨[e2, e1], [e1, e2]⟩ : UniquedQueue).set.Nodup) ∧
    ((⟨[e2, e1], [e2, e1]⟩ : UniquedStack).queue.Nodup ∧
      (⟨[e2, e1], [e2, e1]⟩ : UniquedStack).set.Nodup) :=
  ⟨claim_C1_no_duplicates.1 ⟨[e1], [e1]⟩ e1 (by decide),
   claim_C1_no_duplicates.2.1 ⟨[e1], [e1]⟩ e1 (by decide),
   claim_C1_no_duplicates.2.2.1 [WOp.ins e1, WOp.ins e2] ⟨[e2, e1], [e1, e2]⟩
     (by decide),
   claim_C1_no_duplicates.2.2.2 [WOp.ins e1, WOp.ins e2] ⟨[e2, e1], [e2, e1]⟩
     (by decide)⟩

/-- Claim C2, counterexample: on an exhausted (empty) container, `pop()`
does not fail with an empty result — it calls `front()` (resp. `back()`)
on an empty standard container, which is undefined behaviour (`ub`),
i.e. it misbehaves. -/
theorem claim_C2_counterexample :
    UniquedQueue.pop uqEmpty = PopResult.ub ∧
    UniquedStack.pop usEmpty = PopResult.ub :=
  ⟨rfl, rfl⟩

/-- Claim C2 as amended: `pop()` on a non-empty container removes and
returns the next element (front of the queue, top of the stack); `pop()`
on an empty container is undefined behaviour — the code performs no
emptiness check, so callers must guard with `empty()`. -/
theorem claim_C2_pop_behaviour :
    (∀ (st : List Elem) (x : Elem) (r : List Elem),
       UniquedQueue.pop ⟨st, x :: r⟩ = PopResult.ok x ⟨st.erase x, r⟩) ∧
    (∀ (st : List Elem) (x : Elem) (r : List Elem),
       UniquedStack.pop ⟨st, x :: r⟩ = PopResult.ok x ⟨st.erase x, r⟩) ∧
    (∀ st : List Elem, UniquedQueue.pop ⟨st, []⟩ = PopResult.ub) ∧
    (∀ st : List Elem, UniquedStack.pop ⟨st, []⟩ = PopResult.ub) :=
  ⟨fun _ _ _ => rfl, fun _ _ _ => rfl, fun _ => rfl, fun _ => rfl⟩

/-- Claim C8: inserting a not-yet-present element whose `getParent()` is
null fires the assertion (modelled as `none`); consequently every
element a reachable container holds has a non-null parent. -/
theorem claim_C8_parent_assertion :
    (∀ (s : UniquedQueue) (x : Elem), x ∉ s.set → x.getParent = none →
       s.insert x = none) ∧
    (∀ (s : UniquedStack) (x : Elem), x ∉ s.set → x.getParent = none →
       s.insert x = none) ∧
    (∀ (ops : List WOp) (s : UniquedQueue), runQ ops = some s →
       ∀ x ∈ s.queue, x.getParent ≠ none) ∧
    (∀ (ops : List WOp) (s : UniquedStack), runS ops = some s →
       ∀ x ∈ s.queue, x.getParent ≠ none) := by
  refine ⟨?_, ?_, ?_, ?_⟩
  · intro s x hx hp
    simp [UniquedQueue.insert, hx, hp]
  · intro s x hx hp
    simp [UniquedStack.insert, hx, hp]
  · intro ops s h
    exact (runQ_inv h).2.2.2
  · intro ops s h
    exact (runS_inv h).2.2.2

/-- Witness for C8 at concrete inputs: inserting the parentless `e0`
into either empty container asserts. -/
theorem claim_C8_parent_assertion_witness :
    (uqEmpty.insert e0 = none) ∧ (usEmpty.insert e0 = none) ∧
    (e1.getParent ≠ none) ∧ (e2.getParent ≠ none) :=
  ⟨claim_C8_parent_assertion.1 uqEmpty e0 (by decide) rfl,
   claim_C8_parent_assertion.2.1 usEmpty e0 (by decide) rfl,
   claim_C8_parent_assertion.2.2.1 [WOp.ins e1] ⟨[e1], [e1]⟩ (by decide)
     e1 (by decide),
   claim_C8_parent_assertion.2.2.2 [WOp.ins e2] ⟨[e2], [e2]⟩ (by decide)
     e2 (by decide)⟩

/-- Claim C3: `UniquedQueue` is FIFO — inserting a sequence of distinct
(parented) elements with no intervening pops and then popping repeatedly
returns the elements in exactly their insertion order. -/
theorem claim_C3_fifo (l : List Elem) (hnd : l.Nodup)
    (hpar : ∀ x ∈ l, x.getParent ≠ none) :
    ∃ s, runQ (l.map WOp.ins) = some s ∧ s.queue = l ∧ PopsToQ s l := by
  have h := foldQ_insertList l [] [] hnd hpar (by simp)
  refine ⟨⟨l.reverse, l⟩, ?_, rfl, popsToQ_queue l l.reverse⟩
  unfold runQ uqEmpty
  simpa using h

/-- Witness for C3 at a concrete input. -/
theorem claim_C3_fifo_witness :
    ∃ s, runQ ([e1, e2].map WOp.ins) = some s ∧ s.queue = [e1, e2] ∧
      PopsToQ s [e1, e2] :=
  claim_C3_fifo [e1, e2] (by decide) (by decide)

/-- Claim C4: `UniquedStack` is LIFO — in any state reached by a
well-defined operation sequence, if the stack is non-empty then `pop()`
returns the live element whose effective insertion is the most recent
(as recorded by the ghost-timestamped instrumentation of the same run). -/
theorem claim_C4_lifo (ops : List WOp) (s : UniquedStack)
    (h : runS ops = some s) (hne : s.queue ≠ []) :
    ∃ g, runGS ops = some g ∧ g.s = s ∧
      ∃ x c t, s.pop = PopResult.ok x c ∧ (x, t) ∈ g.ghost ∧
        ∀ p ∈ g.ghost, p.2 ≤ t := by
  have hproj := runGS_proj ops
  cases hg : runGS ops with
  | none =>
    rw [hg, h] at hproj
    simp at hproj
  | some g =>
    rw [hg, h] at hproj
    simp only [Option.map_some', Option.some.injEq] at hproj
    obtain ⟨hal, hpw, _⟩ := runGS_inv hg
    refine ⟨g, rfl, hproj, ?_⟩
    cases hq : s.queue with
    | nil => exact absurd hq hne
    | cons x rest =>
      have hpop : s.pop = PopResult.ok x ⟨s.set.erase x, rest⟩ := by
        unfold UniquedStack.pop
        rw [hq]
      rw [hproj, hq] at hal
      cases hgh : g.ghost with
      | nil => rw [hgh] at hal; cases hal
      | cons p gr =>
        rw [hgh] at hal
        simp only [List.map_cons, List.cons.injEq] at hal
        refine ⟨x, ⟨s.set.erase x, rest⟩, p.2, hpop, ?_, ?_⟩
        · rw [← hal.1, Prod.mk.eta]
          exact List.mem_cons_self p gr
        · intro q hqm
          rcases List.mem_cons.mp hqm with rfl | hqm
          · exact le_refl _
          · exact le_of_lt ((List.pairwise_cons.mp (hgh ▸ hpw)).1 q hqm)

/-- Witness for C4 at a concrete input. -/
theorem claim_C4_lifo_witness :
    ∃ g, runGS [WOp.ins e1, WOp.ins e2] = some g ∧
      g.s = (⟨[e2, e1], [e2, e1]⟩ : UniquedStack) ∧
      ∃ x c t, (⟨[e2, e1], [e2, e1]⟩ : UniquedStack).pop =
          PopResult.ok x c ∧ (x, t) ∈ g.ghost ∧ ∀ p ∈ g.ghost, p.2 ≤ t :=
  claim_C4_lifo [WOp.ins e1, WOp.ins e2] ⟨[e2, e1], [e2, e1]⟩
    (by decide) (by decide)

/-- Claim C5: the debug-info selector accepts exactly `none`, `asm` and
`ptc` (mapped to `None`, `OriginalAssembly` and `PTC`); any other value
makes argument parsing fail, so `main` exits with failure before any
translation. -/
theorem claim_C5_debug_selector :
    (parseDebugArg "none" = some DebugInfoType.None) ∧
    (parseDebugArg "asm" = some DebugInfoType.OriginalAssembly) ∧
    (parseDebugArg "ptc" = some DebugInfoType.PTC) ∧
    (∀ v : String, v ≠ "none" → v ≠ "asm" → v ≠ "ptc" →
       parseDebugArg v = none) ∧
    (∀ (env : DLEnv) (openOk : Bool) (stream : List Nat) (args : ArgInput)
       (v : String), args.debugString = some v → parseDebugArg v = none →
       mainModel env openOk stream args = ⟨1, none⟩) := by
  refine ⟨rfl, rfl, rfl, ?_, ?_⟩
  · intro v h1 h2 h3
    simp [parseDebugArg, h1, h2, h3]
  · intro env openOk stream args v hdbg hbad
    have hdo : parseDebugOpt args.debugString = none := by
      unfold parseDebugOpt
      rw [hdbg]
      exact hbad
    have hpa : parseArgs args = none := by
      unfold parseArgs
      cases args.architecture with
      | none => rfl
      | some arch =>
        cases parseOffsetArg args.offsetString with
        | none => rfl
        | some off => rw [hdo]
    simp [mainModel, hpa]

/-- Witness for C5 at a concrete rejected value. -/
theorem claim_C5_debug_selector_witness :
    (parseDebugArg "bogus" = none) ∧
    (mainModel ⟨fun _ => true, fun _ => true, fun _ => 0⟩ true []
       ⟨some "arm", none, some "bogus", []⟩ = ⟨1, none⟩) :=
  ⟨claim_C5_debug_selector.2.2.2.1 "bogus" (by decide) (by decide) (by decide),
   claim_C5_debug_selector.2.2.2.2 ⟨fun _ => true, fun _ => true, fun _ => 0⟩
     true [] ⟨some "arm", none, some "bogus", []⟩ "bogus" rfl
     (claim_C5_debug_selector.2.2.2.1 "bogus" (by decide) (by decide)
       (by decide))⟩

/-- Claim C6, counterexample: the offset string `-1` denotes a negative
value, yet argument parsing accepts it and stores the wrapped value
`2 ^ 64 - 1` (via the `(size_t) Offset` cast) instead of rejecting it. -/
theorem claim_C6_counterexample :
    parseArgs ⟨some "arm", some "-1", none, []⟩ =
      some ⟨"arm", none, none, 2 ^ 64 - 1, DebugInfoType.None⟩ := by
  decide

/-- Claim C6 as amended: the offset is optional with default 0; a string
`sscanf %lld` cannot parse is rejected; a parsed value `v` (negative
ones included) is accepted and stored as `(size_t) v`, i.e. `v` modulo
`2 ^ 64` — in particular a non-negative `v` below `2 ^ 64` is stored
exactly. -/
theorem claim_C6_offset_parsing :
    (∀ arch : String, parseArgs ⟨some arch, none, none, []⟩ =
       some ⟨arch, none, none, 0, DebugInfoType.None⟩) ∧
    (∀ arch s : String, sscanfLL s = none →
       parseArgs ⟨some arch, some s, none, []⟩ = none) ∧
    (∀ (arch s : String) (v : Int), sscanfLL s = some v →
       parseArgs ⟨some arch, some s, none, []⟩ =
         some ⟨arch, none, none, toSizeT v, DebugInfoType.None⟩) ∧
    (∀ (arch s : String) (v : Int), sscanfLL s = some v → 0 ≤ v →
       v < 2 ^ 64 → parseArgs ⟨some arch, some s, none, []⟩ =
         some ⟨arch, none, none, v.toNat, DebugInfoType.None⟩) := by
  refine ⟨?_, ?_, ?_, ?_⟩
  · intro arch
    rfl
  · intro arch s hs
    simp [parseArgs, parseOffsetArg, hs]
  · intro arch s v hs
    simp [parseArgs, parseOffsetArg, parseDebugOpt, hs]
  · intro arch s v hs h0 hlt
    have h2 : (2 : Int) ^ 64 = 18446744073709551616 := by norm_num
    rw [h2] at hlt
    have hmod : toSizeT v = v.toNat := by
      unfold toSizeT
      rw [h2]
      omega
    simp [parseArgs, parseOffsetArg, parseDebugOpt, hs, hmod]

/-- Witness for C6 at concrete inputs. -/
theorem claim_C6_offset_parsing_witness :
    (parseArgs ⟨some "arm", none, none, []⟩ =
       some ⟨"arm", none, none, 0, DebugInfoType.None⟩) ∧
    (parseArgs ⟨some "arm", some "abc", none, []⟩ = none) ∧
    (parseArgs ⟨some "arm", some "-1", none, []⟩ =
       some ⟨"arm", none, none, toSizeT (-1), DebugInfoType.None⟩) ∧
    (parseArgs ⟨some "arm", some "7", none, []⟩ =
       some ⟨"arm", none, none, (7 : Int).toNat, DebugInfoType.None⟩) :=
  ⟨claim_C6_offset_parsing.1 "arm",
   claim_C6_offset_parsing.2.1 "arm" "abc" (by decide),
   claim_C6_offset_parsing.2.2.1 "arm" "-1" (-1) (by decide),
   claim_C6_offset_parsing.2.2.2 "arm" "7" 7 (by decide) (by decide)
     (by decide)⟩

/-- Claim C7: configuration errors — a failing argument parse (missing
architecture among them), an unresolvable decoder library, a missing
`ptc_load` entry point, or a failing `ptc_load` — make `main` return
`EXIT_FAILURE` without ever invoking `Translate`. -/
theorem claim_C7_config_errors :
    (∀ (env : DLEnv) (openOk : Bool) (stream : List Nat) (args : ArgInput),
       parseArgs args = none → mainModel env openOk stream args = ⟨1, none⟩) ∧
    (∀ (env : DLEnv) (openOk : Bool) (stream : List Nat) (args : ArgInput)
       (p : ProgramParameters), parseArgs args = some p →
       loadPTCLibrary env p.architecture = false →
       mainModel env openOk stream args = ⟨1, none⟩) ∧
    (∀ args : ArgInput, args.architecture = none → parseArgs args = none) ∧
    (∀ (env : DLEnv) (arch : String), env.libResolves arch = false →
       loadPTCLibrary env arch = false) ∧
    (∀ (env : DLEnv) (arch : String), env.hasPtcLoad arch = false →
       loadPTCLibrary env arch = false) ∧
    (∀ (env : DLEnv) (arch : String), env.ptcLoadRet arch ≠ 0 →
       loadPTCLibrary env arch = false) := by
  refine ⟨?_, ?_, ?_, ?_, ?_, ?_⟩
  · intro env openOk stream args hpa
    simp [mainModel, hpa]
  · intro env openOk stream args p hpa hload
    simp [mainModel, hpa, hload]
  · intro args ha
    unfold parseArgs
    rw [ha]
  · intro env arch h
    simp [loadPTCLibrary, h]
  · intro env arch h
    simp [loadPTCLibrary, h]
  · intro env arch h
    simp [loadPTCLibrary, h]

/-- Witness for C7 at concrete inputs. -/
theorem claim_C7_config_errors_witness :
    (mainModel ⟨fun _ => true, fun _ => true, fun _ => 0⟩ true []
       ⟨none, none, none, []⟩ = ⟨1, none⟩) ∧
    (mainModel ⟨fun _ => false, fun _ => true, fun _ => 0⟩ true []
       ⟨some "arm", none, none, []⟩ = ⟨1, none⟩) ∧
    (parseArgs ⟨none, none, none, []⟩ = none) ∧
    (loadPTCLibrary ⟨fun _ => false, fun _ => true, fun _ => 0⟩ "arm" =
      false) ∧
    (loadPTCLibrary ⟨fun _ => true, fun _ => false, fun _ => 0⟩ "arm" =
      false) ∧
    (loadPTCLibrary ⟨fun _ => true, fun _ => true, fun _ => 1⟩ "arm" =
      false) :=
  ⟨claim_C7_config_errors.1 ⟨fun _ => true, fun _ => true, fun _ => 0⟩ true []
     ⟨none, none, none, []⟩ (claim_C7_config_errors.2.2.1 _ rfl),
   claim_C7_config_errors.2.1 ⟨fun _ => false, fun _ => true, fun _ => 0⟩
     true [] ⟨some "arm", none, none, []⟩
     ⟨"arm", none, none, 0, DebugInfoType.None⟩ (by decide) rfl,
   claim_C7_config_errors.2.2.1 ⟨none, none, none, []⟩ rfl,
   claim_C7_config_errors.2.2.2.1 ⟨fun _ => false, fun _ => true, fun _ => 0⟩
     "arm" rfl,
   claim_C7_config_errors.2.2.2.2.1 ⟨fun _ => true, fun _ => false,
     fun _ => 0⟩ "arm" rfl,
   claim_C7_config_errors.2.2.2.2.2 ⟨fun _ => true, fun _ => true,
     fun _ => 1⟩ "arm" (by decide)⟩

/-- Claim C9: `ReadWholeInput` fails with `EXIT_FAILURE` on every stream
of `10 * 1024 * 1024` bytes or more, and succeeds on every smaller
stream with the buffer holding exactly the bytes read, in order. -/
theorem claim_C9_input_cap (stream : List Nat) :
    (MAX_INPUT_BUFFER ≤ stream.length → (ReadWholeInput stream).fst = 1) ∧
    (stream.length < MAX_INPUT_BUFFER → ReadWholeInput stream = (0, stream)) :=
  ⟨(readWholeInput_spec stream).2, (readWholeInput_spec stream).1⟩

/-- Witness for C9: a stream exactly at the cap fails, a three-byte
stream is read back exactly. -/
theorem claim_C9_input_cap_witness :
    ((ReadWholeInput (List.replicate MAX_INPUT_BUFFER 0)).fst = 1) ∧
    (ReadWholeInput [7, 8, 9] = (0, [7, 8, 9])) :=
  ⟨(claim_C9_input_cap (List.replicate MAX_INPUT_BUFFER 0)).1 (by simp),
   (claim_C9_input_cap [7, 8, 9]).2 (by decide)⟩

/-- Claim C10: `main` never checks the start offset against the input
size; whenever the offset exceeds the number of bytes read, the length
handed to `Translate` is the unsigned wrap-around
`(size - offset) mod 2 ^ 64` — strictly larger than the buffer itself —
and the run still reports success. -/
theorem claim_C10_offset_wrap (env : DLEnv) (openOk : Bool)
    (stream : List Nat) (args : ArgInput) (p : ProgramParameters)
    (hpa : parseArgs args = some p)
    (hload : loadPTCLibrary env p.architecture = true)
    (hopen : openOk = true)
    (hsmall : stream.length < MAX_INPUT_BUFFER)
    (hoff : stream.length < p.offset) (hofflt : p.offset < 2 ^ 64) :
    mainModel env openOk stream args =
      ⟨0, some ⟨p.offset, 2 ^ 64 - (p.offset - stream.length),
                p.debugInfo⟩⟩ ∧
      stream.length < 2 ^ 64 - (p.offset - stream.length) := by
  subst hopen
  have hr := (readWholeInput_spec stream).1 hsmall
  constructor
  · have hlen : toSizeT ((stream.length : Int) - (p.offset : Int)) =
        2 ^ 64 - (p.offset - stream.length) := by
      unfold toSizeT
      omega
    simp [mainModel, hpa, hload, hr, hlen]
  · omega

/-- Witness for C10: a two-byte input with offset 5 reaches `Translate`
with the wrapped length `2 ^ 64 - 3`. -/
theorem claim_C10_offset_wrap_witness :
    (mainModel ⟨fun _ => true, fun _ => true, fun _ => 0⟩ true [1, 2]
       ⟨some "arm", some "5", none, []⟩ =
       ⟨0, some ⟨5, 2 ^ 64 - 3, DebugInfoType.None⟩⟩) ∧
    ((2 : Nat) < 2 ^ 64 - 3) :=
  claim_C10_offset_wrap ⟨fun _ => true, fun _ => true, fun _ => 0⟩
    true [1, 2] ⟨some "arm", some "5", none, []⟩
    ⟨"arm", none, none, 5, DebugInfoType.None⟩ (by decide) rfl rfl
    (by decide) (by decide) (by decide)
